import Mathlib

/-!
Verification of the AB ETF live-AUM valuation pipeline (`src/app.py`).

The pipeline resolves, per ticker, a last price and a shares-outstanding
count from partially populated provider snapshots, with an operator
overrides table taking precedence, and combines them into per-ticker
estimated AUM plus a portfolio total and a missing-shares set.

Embedding conventions:
- Python floats are modelled as rationals (`ℚ`); a provider field is
  `Option` of a value type that distinguishes a numeric value from NaN
  (and, for quote fields, from a value `float()` cannot convert).
- `fi.get(k)` returning `None` is `Option.none`; Python truthiness of a
  numeric value `q` is `q ≠ 0` (NaN is truthy).
- `int(x)` on a float truncates toward zero (`ratTrunc`).
- The cached fetchers `_get_fast_info` / `_get_info` and the history
  fallback are modelled by passing the snapshot data (`FastInfo`,
  `Info`, `Option ℚ`) that the fetch would have produced.
- The overrides CSV is modelled as either a load failure (missing or
  unreadable file) or a parsed table: a header (list of column names)
  and rows whose cells may be missing (`pandas` NaN) or, for the shares
  column, a value `astype(int)` would reject.
-/

namespace ABEtf

/-- Python `str.upper()` (`.str.upper()` on the ticker column,
`t.upper()` in the fetch loop), as a character-wise map. -/
def strUpper (s : String) : String :=
  String.mk (s.data.map Char.toUpper)

/-- A value found in a quote snapshot field (`fast_info`): NaN, a numeric
value, or a value that `float()` raises on. -/
inductive QuoteVal where
  | nan
  | num (q : ℚ)
  | unconvertible
deriving DecidableEq

/-- The quote snapshot, restricted to the three fields
`_get_last_price` consults; `none` models an absent field. -/
structure FastInfo where
  last_price : Option QuoteVal
  regularMarketPrice : Option QuoteVal
  currentPrice : Option QuoteVal
deriving DecidableEq

/-- A value found in a fundamentals (`get_info`) field: NaN or numeric. -/
inductive InfoVal where
  | nan
  | num (q : ℚ)
deriving DecidableEq

/-- The fundamentals snapshot, restricted to the four fields
`_infer_shares_from_info` consults. -/
structure Info where
  sharesOutstanding : Option InfoVal
  fundSharesOutstanding : Option InfoVal
  totalAssets : Option InfoVal
  netAssets : Option InfoVal
deriving DecidableEq

/-- Python truthiness of a fundamentals value: NaN is truthy, a number is
truthy iff nonzero. -/
def truthyV : InfoVal → Bool
  | .nan => true
  | .num q => q != 0

/-- Python `a or b` over two optional fundamentals fields
(`info.get(k1) or info.get(k2)`): the first operand if truthy, else the
second (an absent field is `None`, which is falsy). -/
def pyOr (a b : Option InfoVal) : Option InfoVal :=
  match a with
  | some v => if truthyV v then some v else b
  | none => b

/-- Python `int()` applied to a float: truncation toward zero, expressed
with the executable `Rat.floor` (`-⌊-q⌋` is the ceiling). -/
def ratTrunc (q : ℚ) : ℤ :=
  if 0 ≤ q then q.floor else -(Rat.floor (-q))

/-- One step of the quote-field loop in `_get_last_price`: the field is
accepted exactly when it is present, not NaN, and `float()` converts it
(in the model: it is a numeric value). -/
def acceptQuote : Option QuoteVal → Option ℚ
  | some (QuoteVal.num q) => some q
  | _ => none

/-- `_get_last_price` (src/app.py:99-115): try the three candidate quote
fields in order, returning the first accepted one; otherwise fall back to
the close of the most recent intraday bar (`hist`, `none` when the
history is empty or the fetch raised); otherwise `none`. -/
def _get_last_price (fi : FastInfo) (hist : Option ℚ) : Option ℚ :=
  match acceptQuote fi.last_price with
  | some q => some q
  | none =>
    match acceptQuote fi.regularMarketPrice with
    | some q => some q
    | none =>
      match acceptQuote fi.currentPrice with
      | some q => some q
      | none => hist

/-- The direct shares-outstanding step of `_infer_shares_from_info`
(src/app.py:119-121): `info.get("sharesOutstanding") or
info.get("fundSharesOutstanding")`, accepted when numeric and positive,
returned through `int()`. -/
def directShares (info : Info) : Option ℤ :=
  match pyOr info.sharesOutstanding info.fundSharesOutstanding with
  | some (InfoVal.num q) => if 0 < q then some (ratTrunc q) else none
  | _ => none

/-- The total-assets fallback of `_infer_shares_from_info`
(src/app.py:122-129): `info.get("totalAssets") or info.get("netAssets")`;
when that is truthy and the resolved price is truthy and positive,
`int(total_assets / price)`, accepted only if positive. An NaN
total-assets value is truthy but `int(nan)` raises, which the code
swallows, yielding `none`. -/
def taFallback (info : Info) (last_price : Option ℚ) : Option ℤ :=
  match pyOr info.totalAssets info.netAssets with
  | none => none
  | some v =>
    match last_price with
    | none => none
    | some p =>
      if truthyV v ∧ 0 < p then
        match v with
        | InfoVal.nan => none
        | InfoVal.num q =>
          if 0 < ratTrunc (q / p) then some (ratTrunc (q / p)) else none
      else none

/-- `_infer_shares_from_info` (src/app.py:117-130): the direct
shares-outstanding field, then the total-assets fallback, else `none`. -/
def _infer_shares_from_info (info : Info) (last_price : Option ℚ) : Option ℤ :=
  match directShares info with
  | some s => some s
  | none => taFallback info last_price

/-- A cell of the shares column of the overrides CSV as pandas parsed
it: a numeric value, or one that `astype(int)` raises on. -/
inductive RawVal where
  | num (q : ℚ)
  | bad
deriving DecidableEq

/-- A parsed row of the overrides CSV; `none` cells are pandas NaN. -/
structure RawRow where
  ticker : Option String
  shares_outstanding : Option RawVal
deriving DecidableEq

/-- The overrides CSV source: either `pd.read_csv` fails outright
(missing or unreadable file) or it yields a table with the given header
columns and rows. -/
inductive CsvSource where
  | failure
  | table (header : List String) (rows : List RawRow)
deriving DecidableEq

/-- The row filter inside `_load_overrides`: uppercase the ticker, then
`dropna(subset=["ticker", "shares_outstanding"])` keeps exactly the rows
with both cells present. -/
def dropna (rows : List RawRow) : List (String × RawVal) :=
  rows.filterMap fun r =>
    match r.ticker, r.shares_outstanding with
    | some t, some v => some (strUpper t, v)
    | _, _ => none

/-- `astype(int)` on one remaining cell: truncate a numeric value, raise
(`none`) otherwise. -/
def convInt : String × RawVal → Option (String × ℤ)
  | (t, RawVal.num q) => some (t, ratTrunc q)
  | (_, RawVal.bad) => none

/-- `_load_overrides` (src/app.py:89-97): on any failure — unreadable
file, a missing `ticker` or `shares_outstanding` column (a `KeyError`
from the column accesses), or a shares value `astype(int)` rejects — the
`except` clause returns the empty table; otherwise the dropna-filtered
rows with tickers uppercased and shares cast to int. -/
def _load_overrides (src : CsvSource) : List (String × ℤ) :=
  match src with
  | CsvSource.failure => []
  | CsvSource.table header rows =>
    if "ticker" ∈ header ∧ "shares_outstanding" ∈ header then
      match (dropna rows).mapM convInt with
      | some l => l
      | none => []
    else []

/-- `_get_shares_outstanding` (src/app.py:132-138): look the ticker up in
the overrides table (`.loc[...]` then `.iloc[0]`, i.e. the first matching
row); return its value if positive, otherwise fall through to
`_infer_shares_from_info`. -/
def _get_shares_outstanding (ticker : String) (last_price : Option ℚ)
    (overrides : List (String × ℤ)) (info : Info) : Option ℤ :=
  match overrides.find? (fun r => r.1 == ticker) with
  | some r =>
    if 0 < r.2 then some r.2 else _infer_shares_from_info info last_price
  | none => _infer_shares_from_info info last_price

/-- The per-ticker AUM expression of the fetch loop (src/app.py:156):
`price * shares` when both are present, else `None`. -/
def est_aum (price : Option ℚ) (shares : Option ℤ) : Option ℚ :=
  match price, shares with
  | some p, some s => some (p * (s : ℚ))
  | _, _ => none

/-- The provider data available for one ticker: its quote snapshot, the
close of its most recent intraday bar, and its fundamentals snapshot. -/
structure TickerData where
  fastInfo : FastInfo
  hist : Option ℚ
  info : Info

/-- One entry of `rows` built by the fetch loop (src/app.py:157). -/
structure Row where
  ticker : String
  price : Option ℚ
  shares : Option ℤ
  estAum : Option ℚ
deriving DecidableEq

/-- One iteration of the fetch loop (src/app.py:154-157): resolve the
price, then the shares (which may use the price), then combine. -/
def valuationRow (overrides : List (String × ℤ)) (env : String → TickerData)
    (t : String) : Row :=
  let price := _get_last_price (env t).fastInfo (env t).hist
  let shares := _get_shares_outstanding t price overrides (env t).info
  { ticker := t, price := price, shares := shares, estAum := est_aum price shares }

/-- The fetch loop (src/app.py:152-159) over the (already uppercased)
ticker list: accumulates the row list and, whenever the resolved shares
is absent, the ticker into the missing list. -/
def fetchLoop (overrides : List (String × ℤ)) (env : String → TickerData) :
    List String → List Row × List String
  | [] => ([], [])
  | t :: ts =>
    let row := valuationRow overrides env t
    let rest := fetchLoop overrides env ts
    (row :: rest.1, if row.shares.isNone then t :: rest.2 else rest.2)

/-- `total_est` (src/app.py:162): `np.nansum` of the present AUM values
when the row list is nonempty, else `0.0`. (No NaN AUM exists in the
model, so `nansum` is a plain sum.) -/
def total_est (rows : List Row) : ℚ :=
  if rows.isEmpty then 0 else (rows.filterMap (fun r => r.estAum)).sum

/-- The whole valuation pass (src/app.py:151-162): uppercase the tracked
universe, run the fetch loop, and total the rows. -/
def runValuation (tickers : List String) (overrides : List (String × ℤ))
    (env : String → TickerData) : List Row × ℚ × List String :=
  let out := fetchLoop overrides env (tickers.map strUpper)
  (out.1, total_est out.1, out.2)

example : _get_last_price ⟨some (QuoteVal.num 10), none, none⟩ none = some 10 := by decide
example : _get_last_price ⟨some QuoteVal.nan, none, some (QuoteVal.num 3)⟩ none = some 3 := by decide
example : _get_last_price ⟨some (QuoteVal.num 0), none, none⟩ none = some 0 := by decide
example : ratTrunc (mkRat 27 10) = 2 := by decide
example : ratTrunc (mkRat (-27) 10) = -2 := by decide
example : _infer_shares_from_info ⟨none, none, some (InfoVal.num 100000000), none⟩ (some 0) = none := by decide
example : _get_shares_outstanding "ABC" none [("ABC", 100), ("ABC", 200)] ⟨none, none, none, none⟩ = some 100 := by decide
example : _load_overrides (CsvSource.table ["ticker", "shares_outstanding"] [⟨some "abc", some (RawVal.num 0)⟩]) = [("ABC", 0)] := by decide
example : _get_shares_outstanding "T" none [] ⟨some (InfoVal.num (mkRat 1 2)), none, none, none⟩ = some 0 := by decide

/-! Helper lemmas. -/

theorem ratFloor_eq_intFloor (q : ℚ) : q.floor = ⌊q⌋ :=
  (Rat.floor_def' q).trans Rat.floor_def.symm

theorem ratTrunc_of_nonneg {q : ℚ} (h : 0 ≤ q) : ratTrunc q = ⌊q⌋ := by
  rw [ratTrunc, if_pos h, ratFloor_eq_intFloor]

theorem ratTrunc_nonneg {q : ℚ} (h : 0 ≤ q) : 0 ≤ ratTrunc q := by
  rw [ratTrunc_of_nonneg h]
  exact Int.floor_nonneg.mpr h

theorem ratTrunc_nonpos {q : ℚ} (h : q < 0) : ratTrunc q ≤ 0 := by
  rw [ratTrunc, if_neg (not_le.mpr h), ratFloor_eq_intFloor, neg_nonpos]
  exact Int.floor_nonneg.mpr (by linarith)

theorem ratTrunc_pos_filter_eq_floor (x : ℚ) :
    (if 0 < ratTrunc x then some (ratTrunc x) else none)
      = if 0 < ⌊x⌋ then some ⌊x⌋ else none := by
  rcases le_or_lt 0 x with h | h
  · rw [ratTrunc_of_nonneg h]
  · rw [if_neg (not_lt.mpr (ratTrunc_nonpos h)),
      if_neg (not_lt.mpr (le_of_lt (Int.floor_lt.mpr (by exact_mod_cast h))))]

theorem find?_of_filter_eq_singleton (p : α → Bool) :
    ∀ (l : List α) (a : α), l.filter p = [a] → l.find? p = some a := by
  intro l a h
  induction l with
  | nil => simp at h
  | cons x xs ih =>
    rw [List.filter_cons] at h
    by_cases hx : p x
    · rw [if_pos hx, List.cons.injEq] at h
      rw [List.find?_cons_of_pos _ hx, h.1]
    · rw [if_neg hx] at h
      rw [List.find?_cons_of_neg _ (by simpa using hx)]
      exact ih h

theorem infer_shares_nonneg {info : Info} {p : Option ℚ} {n : ℤ}
    (h : _infer_shares_from_info info p = some n) : 0 ≤ n := by
  rw [_infer_shares_from_info] at h
  split at h
  · rename_i s hd
    cases h
    rw [directShares] at hd
    split at hd
    · split at hd
      · cases hd
        exact ratTrunc_nonneg (le_of_lt (by assumption))
      · cases hd
    · cases hd
  · rw [taFallback] at h
    split at h
    · cases h
    · split at h
      · cases h
      · split at h
        · split at h
          · cases h
          · split at h
            · cases h
              exact le_of_lt (by assumption)
            · cases h
        · cases h

theorem taFallback_none_price (info : Info) : taFallback info none = none := by
  rw [taFallback]
  cases pyOr info.totalAssets info.netAssets <;> rfl

theorem taFallback_some_eq (info : Info) (v : InfoVal) (p : ℚ)
    (h : pyOr info.totalAssets info.netAssets = some v) :
    taFallback info (some p) =
      if truthyV v ∧ 0 < p then
        (match v with
         | InfoVal.nan => none
         | InfoVal.num q =>
           if 0 < ratTrunc (q / p) then some (ratTrunc (q / p)) else none)
      else none := by
  rw [taFallback, h]

theorem sum_filterMap_estAum (rows : List Row) :
    (rows.filterMap (fun r => r.estAum)).sum
      = (rows.map (fun r => r.estAum.getD 0)).sum := by
  induction rows with
  | nil => rfl
  | cons r rs ih => cases h : r.estAum <;> simp [List.filterMap_cons, h, ih]

theorem mem_fetchLoop_missing (ov : List (String × ℤ)) (env : String → TickerData) :
    ∀ (ts : List String) (t : String),
      t ∈ (fetchLoop ov env ts).2 ↔ t ∈ ts ∧ (valuationRow ov env t).shares = none := by
  intro ts
  induction ts with
  | nil => intro t; simp [fetchLoop]
  | cons u us ih =>
    intro t
    simp only [fetchLoop]
    by_cases h : (valuationRow ov env u).shares.isNone
    · rw [if_pos h, List.mem_cons, ih t, List.mem_cons]
      constructor
      · rintro (rfl | ⟨hm, hs⟩)
        · exact ⟨Or.inl rfl, by simpa using h⟩
        · exact ⟨Or.inr hm, hs⟩
      · rintro ⟨rfl | hm, hs⟩
        · exact Or.inl rfl
        · exact Or.inr ⟨hm, hs⟩
    · rw [if_neg h, ih t, List.mem_cons]
      constructor
      · rintro ⟨hm, hs⟩
        exact ⟨Or.inr hm, hs⟩
      · rintro ⟨rfl | hm, hs⟩
        · exact absurd (by simp [hs]) h
        · exact ⟨hm, hs⟩

/-! Claim theorems. -/

/-- C1: in the valuation pass the estimated AUM of a row is exactly
`est_aum` of its resolved price and shares, and `est_aum` is exactly the
product when both are present and absent (never zero) when either input
is absent. -/
theorem est_aum_product_iff_both_present (ov : List (String × ℤ))
    (env : String → TickerData) (t : String) :
    (valuationRow ov env t).estAum
        = est_aum (valuationRow ov env t).price (valuationRow ov env t).shares ∧
    (∀ p s, est_aum (some p) (some s) = some (p * (s : ℚ))) ∧
    (∀ s, est_aum none s = none) ∧
    (∀ p, est_aum p none = none) := by
  refine ⟨rfl, fun _ _ => rfl, fun s => by cases s <;> rfl, fun p => by cases p <;> rfl⟩

/-- C2: when the overrides table has exactly one record for the ticker
and its count is positive, the shares resolver returns that count, for
every fundamentals snapshot and price. -/
theorem override_precedence (t : String) (p : Option ℚ) (info : Info)
    (ov : List (String × ℤ)) (v : ℤ)
    (hrec : ov.filter (fun r => r.1 == t) = [(t, v)]) (hpos : 0 < v) :
    _get_shares_outstanding t p ov info = some v := by
  rw [_get_shares_outstanding, find?_of_filter_eq_singleton _ ov (t, v) hrec]
  simp [hpos]

/-- C2 witness: a ticker with override 1000 resolves to 1000 even though
the fundamentals snapshot carries a conflicting shares figure and a
total-assets figure. -/
theorem override_precedence_witness :
    _get_shares_outstanding "LRGC" (some 10) [("LRGC", 1000)]
      ⟨some (InfoVal.num 555), none, some (InfoVal.num 99), none⟩ = some 1000 :=
  override_precedence "LRGC" (some 10)
    ⟨some (InfoVal.num 555), none, some (InfoVal.num 99), none⟩
    [("LRGC", 1000)] 1000 (by decide) (by decide)

/-- C4 counterexample: a quote snapshot whose `last_price` field is `0`
makes the price resolver return `0`, which is present but not positive,
so the resolver does not return only absent-or-positive values. -/
theorem price_zero_accepted_counterexample :
    _get_last_price ⟨some (QuoteVal.num 0), none, none⟩ none = some 0 ∧
      ¬ (0 : ℚ) < 0 :=
  ⟨rfl, lt_irrefl 0⟩

/-- C4 (amended): step 1 of the price resolver accepts the first
candidate field that is present, not NaN and convertible to a real,
without any positivity check (zero and negative values included), and
falls back to the historical close only when all three candidates fail. -/
theorem price_first_accepted_field (fi : FastInfo) (hist : Option ℚ) :
    (∀ q, fi.last_price = some (QuoteVal.num q) → _get_last_price fi hist = some q) ∧
    (acceptQuote fi.last_price = none →
      ∀ q, fi.regularMarketPrice = some (QuoteVal.num q) →
        _get_last_price fi hist = some q) ∧
    (acceptQuote fi.last_price = none → acceptQuote fi.regularMarketPrice = none →
      ∀ q, fi.currentPrice = some (QuoteVal.num q) →
        _get_last_price fi hist = some q) ∧
    (acceptQuote fi.last_price = none → acceptQuote fi.regularMarketPrice = none →
      acceptQuote fi.currentPrice = none → _get_last_price fi hist = hist) := by
  refine ⟨fun q h => ?_, fun h₁ q h => ?_, fun h₁ h₂ q h => ?_, fun h₁ h₂ h₃ => ?_⟩
  · rw [_get_last_price, h]
    rfl
  · rw [_get_last_price, h₁, h]
    rfl
  · rw [_get_last_price, h₁, h₂, h]
    rfl
  · rw [_get_last_price, h₁, h₂, h₃]

/-- C4 witness: a negative `last_price` field is accepted and returned
as the resolved price. -/
theorem price_first_accepted_field_witness :
    _get_last_price ⟨some (QuoteVal.num (-3)), none, none⟩ none = some (-3) :=
  (price_first_accepted_field ⟨some (QuoteVal.num (-3)), none, none⟩ none).1 (-3) rfl

/-- C7 counterexample: with two override rows for the same ticker
(values 100 then 200), the resolver uses 100 — the first row — not the
last row's 200 as the claim states. -/
theorem first_override_row_used_counterexample :
    _get_shares_outstanding "ABC" none [("ABC", 100), ("ABC", 200)]
        ⟨none, none, none, none⟩ = some 100 ∧ (100 : ℤ) ≠ 200 :=
  ⟨by decide, by decide⟩

/-- C7 (amended): with duplicate override rows for a ticker, the value
used is the one from the first such row (`.iloc[0]` of the matching
rows); later rows for the same ticker are ignored. -/
theorem first_override_row_used (t : String) (p : Option ℚ) (info : Info)
    (pre post : List (String × ℤ)) (v : ℤ) (hpre : ∀ r ∈ pre, r.1 ≠ t) :
    _get_shares_outstanding t p (pre ++ (t, v) :: post) info =
      if 0 < v then some v else _infer_shares_from_info info p := by
  have hnone : pre.find? (fun r => r.1 == t) = none :=
    List.find?_eq_none.mpr fun x hx => by simpa using hpre x hx
  rw [_get_shares_outstanding, List.find?_append, hnone,
    List.find?_cons_of_pos _ (by simp)]
  rfl

/-- C7 witness: the amended first-row rule evaluated on the duplicate
table `[("ABC", 100), ("ABC", 200)]`. -/
theorem first_override_row_used_witness :
    _get_shares_outstanding "ABC" none [("ABC", 100), ("ABC", 200)]
        ⟨none, none, none, none⟩ =
      if 0 < (100 : ℤ) then some 100
      else _infer_shares_from_info ⟨none, none, none, none⟩ none :=
  first_override_row_used "ABC" none ⟨none, none, none, none⟩
    [] [("ABC", 200)] 100 (by simp)

/-- C3: the total-assets fallback yields nothing when the price is
absent or non-positive (so the division is never reached with a zero or
absent price), and when a total-assets figure is present (and truthy)
with a positive price it computes `floor(total_assets / price)` and
accepts the result only if positive. -/
theorem total_assets_fallback_guarded (info : Info) (p : ℚ) :
    taFallback info none = none ∧
    (p ≤ 0 → taFallback info (some p) = none) ∧
    (∀ q : ℚ, pyOr info.totalAssets info.netAssets = some (InfoVal.num q) →
      q ≠ 0 → 0 < p →
      taFallback info (some p) = if 0 < ⌊q / p⌋ then some ⌊q / p⌋ else none) := by
  refine ⟨taFallback_none_price info, fun hp => ?_, fun q hq hq0 hp => ?_⟩
  · rcases hta : pyOr info.totalAssets info.netAssets with _ | v
    · rw [taFallback, hta]
    · rw [taFallback_some_eq info v p hta, if_neg]
      rintro ⟨-, h2⟩
      exact absurd h2 (not_lt.mpr hp)
  · rw [taFallback_some_eq info (InfoVal.num q) p hq,
      if_pos ⟨by simp [truthyV, hq0], hp⟩]
    exact ratTrunc_pos_filter_eq_floor (q / p)

/-- C3 witness: fundamentals `totalAssets = 100000000` with price `50`
reach the accepted-floor branch, and with an absent price the fallback
yields nothing. -/
theorem total_assets_fallback_guarded_witness :
    taFallback ⟨none, none, some (InfoVal.num 100000000), none⟩ (some 50) =
      (if 0 < ⌊(100000000 : ℚ) / 50⌋ then some ⌊(100000000 : ℚ) / 50⌋ else none) ∧
    taFallback ⟨none, none, some (InfoVal.num 100000000), none⟩ none = none :=
  ⟨(total_assets_fallback_guarded ⟨none, none, some (InfoVal.num 100000000), none⟩
      50).2.2 100000000 (by decide) (by decide) (by decide),
   (total_assets_fallback_guarded ⟨none, none, some (InfoVal.num 100000000), none⟩
      50).1⟩

/-- C5 counterexample: a direct shares-outstanding field of `1/2` is
positive, so the resolver returns `int(1/2) = 0` — a present but
non-positive value, contradicting the absent-or-positive contract. -/
theorem shares_resolver_zero_counterexample :
    _get_shares_outstanding "LRGC" none []
        ⟨some (InfoVal.num (mkRat 1 2)), none, none, none⟩ = some 0 ∧
      ¬ (0 : ℤ) < 0 :=
  ⟨by decide, by decide⟩

/-- C5 (amended): the shares resolver returns either absent or a
non-negative integer, and an accepted positive direct shares field is
returned as `⌊q⌋` — truncation toward zero, not rounding — which is zero
rather than positive when the field value lies below one. -/
theorem shares_resolver_nonneg_trunc (t : String) (p : Option ℚ)
    (ov : List (String × ℤ)) (info : Info) :
    (∀ n, _get_shares_outstanding t p ov info = some n → 0 ≤ n) ∧
    (∀ q : ℚ, (∀ r ∈ ov, r.1 ≠ t) →
      pyOr info.sharesOutstanding info.fundSharesOutstanding = some (InfoVal.num q) →
      0 < q → _get_shares_outstanding t p ov info = some ⌊q⌋) := by
  constructor
  · intro n h
    rw [_get_shares_outstanding] at h
    split at h
    · split at h
      · cases h
        exact le_of_lt (by assumption)
      · exact infer_shares_nonneg h
    · exact infer_shares_nonneg h
  · intro q hov hq hqpos
    have hnone : ov.find? (fun r => r.1 == t) = none :=
      List.find?_eq_none.mpr fun x hx => by simpa using hov x hx
    have hd : directShares info = some (ratTrunc q) := by
      rw [directShares, hq]
      show (if 0 < q then some (ratTrunc q) else none) = some (ratTrunc q)
      rw [if_pos hqpos]
    rw [_get_shares_outstanding, hnone]
    show _infer_shares_from_info info p = some ⌊q⌋
    rw [_infer_shares_from_info, hd, ratTrunc_of_nonneg (le_of_lt hqpos)]

/-- C5 witness: a direct shares field of `27/10` resolves to its floor,
and the truncation evaluates to `2` (not the rounded `3`). -/
theorem shares_resolver_nonneg_trunc_witness :
    _get_shares_outstanding "LRGC" none []
        ⟨some (InfoVal.num (mkRat 27 10)), none, none, none⟩ = some ⌊mkRat 27 10⌋ ∧
    ratTrunc (mkRat 27 10) = 2 :=
  ⟨(shares_resolver_nonneg_trunc "LRGC" none []
      ⟨some (InfoVal.num (mkRat 27 10)), none, none, none⟩).2 (mkRat 27 10)
      (by simp) (by decide) (by decide),
   by decide⟩

/-- C6 counterexample: a well-formed overrides table whose only row has
`shares_outstanding = 0` loads as a mapping containing that non-positive
entry — non-positive counts are not discarded at load time. -/
theorem overrides_load_keeps_nonpositive_counterexample :
    _load_overrides (CsvSource.table ["ticker", "shares_outstanding"]
        [⟨some "ABC", some (RawVal.num 0)⟩]) = [("ABC", 0)] ∧ ¬ (0 : ℤ) < 0 :=
  ⟨by decide, by decide⟩

/-- C6 (amended): rows with a missing ticker or a missing
shares_outstanding value are discarded at load time, but rows with
non-positive counts are retained in the loaded mapping; a non-positive
override is instead rejected at lookup time by the shares resolver,
which then falls back to the fundamentals chain. -/
theorem overrides_load_missing_dropped_nonpositive_kept
    (header : List String) (pre post : List RawRow) (v : Option RawVal) (s : String)
    (t : String) (p : Option ℚ) (info : Info) (ov : List (String × ℤ))
    (r : String × ℤ) :
    (_load_overrides (CsvSource.table header (pre ++ ⟨none, v⟩ :: post)) =
      _load_overrides (CsvSource.table header (pre ++ post))) ∧
    (_load_overrides (CsvSource.table header (pre ++ ⟨some s, none⟩ :: post)) =
      _load_overrides (CsvSource.table header (pre ++ post))) ∧
    (ov.find? (fun x => x.1 == t) = some r → r.2 ≤ 0 →
      _get_shares_outstanding t p ov info = _infer_shares_from_info info p) := by
  refine ⟨?_, ?_, fun hf hle => ?_⟩
  · have h1 : dropna (pre ++ ⟨none, v⟩ :: post) = dropna (pre ++ post) := by
      simp [dropna, List.filterMap_append, List.filterMap_cons]
    simp only [_load_overrides, h1]
  · have h2 : dropna (pre ++ ⟨some s, none⟩ :: post) = dropna (pre ++ post) := by
      simp [dropna, List.filterMap_append, List.filterMap_cons]
    simp only [_load_overrides, h2]
  · rw [_get_shares_outstanding, hf]
    show (if 0 < r.2 then some r.2 else _infer_shares_from_info info p)
        = _infer_shares_from_info info p
    rw [if_neg (not_lt.mpr hle)]

/-- C6 witness: a ticker-less row is dropped by the load, and a
zero-count override entry is rejected at lookup, deferring to the
fundamentals inference. -/
theorem overrides_load_missing_dropped_nonpositive_kept_witness :
    _load_overrides (CsvSource.table ["ticker", "shares_outstanding"]
        (⟨none, some (RawVal.num 5)⟩ :: [⟨some "AB", some (RawVal.num 7)⟩])) =
      _load_overrides (CsvSource.table ["ticker", "shares_outstanding"]
        [⟨some "AB", some (RawVal.num 7)⟩]) ∧
    _get_shares_outstanding "ABC" none [("ABC", 0)] ⟨none, none, none, none⟩ =
      _infer_shares_from_info ⟨none, none, none, none⟩ none :=
  ⟨(overrides_load_missing_dropped_nonpositive_kept ["ticker", "shares_outstanding"]
      [] [⟨some "AB", some (RawVal.num 7)⟩] (some (RawVal.num 5)) "AB"
      "ABC" none ⟨none, none, none, none⟩ [("ABC", 0)] ("ABC", 0)).1,
   (overrides_load_missing_dropped_nonpositive_kept ["ticker", "shares_outstanding"]
      [] [⟨some "AB", some (RawVal.num 7)⟩] (some (RawVal.num 5)) "AB"
      "ABC" none ⟨none, none, none, none⟩ [("ABC", 0)] ("ABC", 0)).2.2
      (by decide) (by decide)⟩

/-- C8: the portfolio total is the sum of exactly the present AUM
values; a row with an absent AUM contributes zero to the sum; the total
of the empty row list is the number zero; and the pipeline's total is
this sum over its own rows. -/
theorem portfolio_total_sums_present (rows : List Row) (tickers : List String)
    (ov : List (String × ℤ)) (env : String → TickerData) :
    total_est rows = (rows.filterMap (fun r => r.estAum)).sum ∧
    total_est rows = (rows.map (fun r => r.estAum.getD 0)).sum ∧
    total_est [] = 0 ∧
    (runValuation tickers ov env).2.1 =
      (((runValuation tickers ov env).1).map (fun r => r.estAum.getD 0)).sum := by
  have h1 : ∀ rs : List Row, total_est rs = (rs.filterMap (fun r => r.estAum)).sum := by
    intro rs
    cases rs with
    | nil => rfl
    | cons a l => rfl
  exact ⟨h1 rows, (h1 rows).trans (sum_filterMap_estAum rows), rfl,
    (h1 _).trans (sum_filterMap_estAum _)⟩

/-- C9: a ticker of the (uppercased) tracked universe is in the
missing-shares list if and only if its resolved shares is absent; the
row's price plays no role, so price-only absence does not flag a
ticker. -/
theorem missing_shares_set_iff (tickers : List String) (ov : List (String × ℤ))
    (env : String → TickerData) (t : String) (ht : t ∈ tickers.map strUpper) :
    t ∈ (runValuation tickers ov env).2.2 ↔ (valuationRow ov env t).shares = none := by
  have h := mem_fetchLoop_missing ov env (tickers.map strUpper) t
  exact ⟨fun hm => (h.mp hm).2, fun hs => h.mpr ⟨ht, hs⟩⟩

/-- C9 witness: a universe of one unresolvable ticker puts exactly that
ticker in the missing-shares list. -/
theorem missing_shares_set_iff_witness :
    ("LRGC" ∈ (runValuation ["lrgc"] []
        (fun _ => ⟨⟨none, none, none⟩, none, ⟨none, none, none, none⟩⟩)).2.2) ↔
      (valuationRow [] (fun _ => ⟨⟨none, none, none⟩, none, ⟨none, none, none, none⟩⟩)
        "LRGC").shares = none :=
  missing_shares_set_iff ["lrgc"] []
    (fun _ => ⟨⟨none, none, none⟩, none, ⟨none, none, none, none⟩⟩) "LRGC" (by decide)

/-- C10: on a load failure of the overrides source — an unreadable file
or a table missing one of the required columns — the load returns the
empty mapping, and with an empty overrides mapping the shares resolver
proceeds exactly as the fundamentals-only fallback chain. -/
theorem overrides_load_failure_empty (t : String) (p : Option ℚ) (info : Info)
    (header : List String) (rows : List RawRow)
    (hcol : "ticker" ∉ header ∨ "shares_outstanding" ∉ header) :
    _load_overrides CsvSource.failure = [] ∧
    _load_overrides (CsvSource.table header rows) = [] ∧
    _get_shares_outstanding t p [] info = _infer_shares_from_info info p := by
  refine ⟨rfl, ?_, rfl⟩
  rw [_load_overrides, if_neg]
  rintro ⟨h₁, h₂⟩
  rcases hcol with h | h <;> contradiction

/-- C10 witness: a table with only a `ticker` column loads as the empty
mapping, and the resolver on the empty mapping equals the
fundamentals-only inference. -/
theorem overrides_load_failure_empty_witness :
    _load_overrides (CsvSource.table ["ticker"]
        [⟨some "LRGC", some (RawVal.num 5)⟩]) = [] ∧
    _get_shares_outstanding "LRGC" none [] ⟨none, none, none, none⟩ =
      _infer_shares_from_info ⟨none, none, none, none⟩ none :=
  ⟨(overrides_load_failure_empty "LRGC" none ⟨none, none, none, none⟩ ["ticker"]
      [⟨some "LRGC", some (RawVal.num 5)⟩] (Or.inr (by decide))).2.1,
   (overrides_load_failure_empty "LRGC" none ⟨none, none, none, none⟩ ["ticker"]
      [⟨some "LRGC", some (RawVal.num 5)⟩] (Or.inr (by decide))).2.2⟩

end ABEtf
